import Mathlib

/-!
Shallow embedding of `src/modules/metadata_confidence.py` (fairsailau/AI-clean-V2).

Python runtime values that can reach the validation core are modelled by the
inductive `Value` (None, str, int, float, bool); Python floats are modelled as
exact rationals (ℚ), dictionaries as ordered association lists with Python's
insert/overwrite semantics (`dictInsert`, `lookupAL`), and coercion failures as
an explicit exception type `PyErr` restricted to the classes the module's
`try/except (ValueError, TypeError)` handler names.

Modelling notes on library calls made by the source:
* `datetime.strptime` is modelled per CPython's `_strptime` regexes for the five
  directives the source uses (`%Y` exactly four digits; `%m`,`%d`,`%H`,`%M`,`%S`
  two-digit-or-one-digit alternatives with their value ranges), followed by the
  calendar-validity check `datetime(...)` performs (month lengths, leap years,
  year ≥ 1).
* `float(s)` on strings is modelled for finite decimal literals
  (sign, digits, decimal point, exponent); `inf`/`nan` spellings and digit
  underscores are outside the model.
* `repr`/`str` of a float is modelled by a simplified decimal rendering
  (`ratRepr`); no verified claim depends on the rendered text of a float.
* `re.match(pattern, s)` is modelled for literal (metacharacter-free) patterns
  as an anchored prefix test; no verified claim depends on regex semantics.
-/

namespace MetadataConfidence

/-- A Python runtime value as it can appear in extracted data or templates. -/
inductive Value where
  | null
  | str (s : String)
  | int (n : Int)
  | float (q : ℚ)
  | bool (b : Bool)
deriving DecidableEq, Repr, Inhabited

/-- The exception classes caught by the source's `except (ValueError, TypeError)`. -/
inductive PyErr where
  | valueError (msg : String)
  | typeError (msg : String)
deriving DecidableEq, Repr

/-- `type(value).__name__` for the modelled values. -/
def pyTypeName : Value → String
  | .null => "NoneType"
  | .str _ => "str"
  | .int _ => "int"
  | .float _ => "float"
  | .bool _ => "bool"

/-- Simplified decimal rendering of a Python float modelled as a rational. -/
def ratRepr (q : ℚ) : String :=
  if q.den = 1 then toString q.num ++ ".0" else toString q.num ++ "/" ++ toString q.den

/-- Python `str(value)` for the modelled values. -/
def pyStr : Value → String
  | .null => "None"
  | .str s => s
  | .int n => toString n
  | .float q => ratRepr q
  | .bool b => if b then "True" else "False"

/-- Python `str.lower()` (ASCII case folding, which covers every string the
module compares after lowering). -/
def strLower (s : String) : String :=
  String.mk (s.data.map Char.toLower)

/-- The whitespace characters `float()` strips. -/
def isPySpace (c : Char) : Bool :=
  c = ' ' || c = '\t' || c = '\n' || c = '\r' || c = '\x0b' || c = '\x0c'

/-- Strip leading and trailing whitespace (as `float()` does on strings). -/
def stripSpaces (cs : List Char) : List Char :=
  ((cs.dropWhile isPySpace).reverse.dropWhile isPySpace).reverse

/-- Numeric value of an ASCII digit. -/
def digitVal (c : Char) : Option Nat :=
  if c.isDigit then some (c.toNat - 48) else Option.none

/-- Value of a digit string (most significant first). -/
def digitsToNat (ds : List Char) : Nat :=
  ds.foldl (fun a c => 10 * a + (c.toNat - 48)) 0

/-- Fractional and integer digit run of a decimal literal, with the rest. -/
def splitDigits (cs : List Char) : List Char × List Char :=
  cs.span Char.isDigit

/-- Exponent suffix of a Python float literal (after the `e`/`E`): optional
sign then a nonempty digit run that must end the string. -/
def parseExpTail (cs : List Char) : Option Int :=
  let p : Int × List Char :=
    match cs with
    | '+' :: r => (1, r)
    | '-' :: r => (-1, r)
    | _ => (1, cs)
  let ds := splitDigits p.2
  if ds.1.isEmpty || !ds.2.isEmpty then Option.none
  else some (p.1 * (digitsToNat ds.1 : Int))

/-- Unsigned mantissa of a Python float literal: `digits`, `digits.digits`,
`digits.` or `.digits`, returning its exact rational value and the rest. -/
def parseMantissa (cs : List Char) : Option (ℚ × List Char) :=
  let ip := splitDigits cs
  match ip.2 with
  | '.' :: r2 =>
      let fp := splitDigits r2
      if ip.1.isEmpty && fp.1.isEmpty then Option.none
      else some ((digitsToNat ip.1 : ℚ) + (digitsToNat fp.1 : ℚ) / ((10 : ℚ) ^ fp.1.length), fp.2)
  | _ =>
      if ip.1.isEmpty then Option.none
      else some ((digitsToNat ip.1 : ℚ), ip.2)

/-- Python `float(s)` on a string: optional surrounding whitespace, optional
sign, decimal mantissa, optional exponent (finite literals only). -/
def parsePyFloat (s : String) : Option ℚ :=
  let cs := stripSpaces s.data
  let sp : ℚ × List Char :=
    match cs with
    | '+' :: r => (1, r)
    | '-' :: r => (-1, r)
    | _ => (1, cs)
  match parseMantissa sp.2 with
  | some (mag, rest) =>
      match rest with
      | [] => some (sp.1 * mag)
      | e :: r2 =>
          if e = 'e' || e = 'E' then
            match parseExpTail r2 with
            | some k => some (sp.1 * mag * (10 : ℚ) ^ k)
            | Option.none => Option.none
          else Option.none
  | Option.none => Option.none

/-- Python builtin `float(value)`: succeeds on numbers and bools, parses
strings, raises `TypeError` on `None` (and other non-numeric objects),
`ValueError` on an unparsable string. -/
def pyFloat : Value → Except PyErr ℚ
  | .int n => .ok (n : ℚ)
  | .float q => .ok q
  | .bool b => .ok (if b then 1 else 0)
  | .str s =>
      match parsePyFloat s with
      | some q => .ok q
      | Option.none => .error (.valueError ("could not convert string to float: '" ++ s ++ "'"))
  | .null => .error (.typeError "float() argument must be a string or a real number, not 'NoneType'")

/-! ### `datetime.strptime` model for the five formats used by the source -/

/-- Two ASCII digits whose value lies in `[lo, hi]` (CPython's two-digit
alternative of a numeric strptime directive). -/
def pTwoDigit (lo hi : Nat) : List Char → Option (Nat × List Char)
  | c1 :: c2 :: rest =>
      match digitVal c1, digitVal c2 with
      | some d1, some d2 =>
          let v := 10 * d1 + d2
          if lo ≤ v ∧ v ≤ hi then some (v, rest) else Option.none
      | _, _ => Option.none
  | _ => Option.none

/-- One ASCII digit whose value lies in `[lo, hi]`. -/
def pOneDigit (lo hi : Nat) : List Char → Option (Nat × List Char)
  | c :: rest =>
      match digitVal c with
      | some d => if lo ≤ d ∧ d ≤ hi then some (d, rest) else Option.none
      | Option.none => Option.none
  | [] => Option.none

/-- The regex alternatives of a numeric directive, two-digit branch first,
mirroring CPython's `_strptime` patterns (e.g. `%m` is two digits in 1..12 or
one digit in 1..9). -/
def numAlts (twoLo twoHi oneLo oneHi : Nat) (cs : List Char) : List (Nat × List Char) :=
  (pTwoDigit twoLo twoHi cs).toList ++ (pOneDigit oneLo oneHi cs).toList

/-- A single expected literal character. -/
def pChar (c : Char) : List Char → Option (List Char)
  | x :: rest => if x = c then some rest else Option.none
  | [] => Option.none

/-- `%Y`: exactly four ASCII digits. -/
def pYear : List Char → Option (Nat × List Char)
  | c1 :: c2 :: c3 :: c4 :: rest =>
      match digitVal c1, digitVal c2, digitVal c3, digitVal c4 with
      | some d1, some d2, some d3, some d4 =>
          some (1000 * d1 + 100 * d2 + 10 * d3 + d4, rest)
      | _, _, _, _ => Option.none
  | _ => Option.none

/-- Gregorian leap year. -/
def isLeap (y : Nat) : Bool :=
  y % 4 = 0 && (y % 100 ≠ 0 || y % 400 = 0)

/-- Length of a month (month already constrained to 1..12 by the directive). -/
def daysInMonth (y m : Nat) : Nat :=
  if m = 2 then (if isLeap y then 29 else 28)
  else if m = 4 || m = 6 || m = 9 || m = 11 then 30
  else 31

/-- The calendar check `datetime(year, month, day)` performs: year at least 1
(MINYEAR) and the day within the month. -/
def validDate (y m d : Nat) : Bool :=
  1 ≤ y && 1 ≤ d && d ≤ daysInMonth y m

/-- `%H:%M:%S` against the rest of the string, which it must exhaust. -/
def matchHMS (cs : List Char) : Bool :=
  (numAlts 0 23 0 9 cs).any fun h1 =>
    match pChar ':' h1.2 with
    | some r2 =>
        (numAlts 0 59 0 9 r2).any fun m1 =>
          match pChar ':' m1.2 with
          | some r4 => (numAlts 0 59 0 9 r4).any fun s1 => s1.2.isEmpty
          | Option.none => false
    | Option.none => false

/-- `%Y-%m-%d` against the whole string. -/
def matchYMD (cs : List Char) : Bool :=
  match pYear cs with
  | some (y, r1) =>
      match pChar '-' r1 with
      | some r2 =>
          (numAlts 1 12 1 9 r2).any fun m1 =>
            match pChar '-' m1.2 with
            | some r4 =>
                (numAlts 1 31 1 9 r4).any fun d1 =>
                  d1.2.isEmpty && validDate y m1.1 d1.1
            | Option.none => false
      | Option.none => false
  | Option.none => false

/-- `%m/%d/%Y` against the whole string. -/
def matchMDY (cs : List Char) : Bool :=
  (numAlts 1 12 1 9 cs).any fun m1 =>
    match pChar '/' m1.2 with
    | some r2 =>
        (numAlts 1 31 1 9 r2).any fun d1 =>
          match pChar '/' d1.2 with
          | some r4 =>
              match pYear r4 with
              | some (y, r5) => r5.isEmpty && validDate y m1.1 d1.1
              | Option.none => false
          | Option.none => false
    | Option.none => false

/-- `%d/%m/%Y` against the whole string. -/
def matchDMY (cs : List Char) : Bool :=
  (numAlts 1 31 1 9 cs).any fun d1 =>
    match pChar '/' d1.2 with
    | some r2 =>
        (numAlts 1 12 1 9 r2).any fun m1 =>
          match pChar '/' m1.2 with
          | some r4 =>
              match pYear r4 with
              | some (y, r5) => r5.isEmpty && validDate y m1.1 d1.1
              | Option.none => false
          | Option.none => false
    | Option.none => false

/-- `%Y-%m-%d` followed by a separator (`T` or a space) and `%H:%M:%S`. -/
def matchYMDTime (sep : Char) (cs : List Char) : Bool :=
  match pYear cs with
  | some (y, r1) =>
      match pChar '-' r1 with
      | some r2 =>
          (numAlts 1 12 1 9 r2).any fun m1 =>
            match pChar '-' m1.2 with
            | some r4 =>
                (numAlts 1 31 1 9 r4).any fun d1 =>
                  match pChar sep d1.2 with
                  | some r6 => matchHMS r6 && validDate y m1.1 d1.1
                  | Option.none => false
            | Option.none => false
      | Option.none => false
  | Option.none => false

/-- `datetime.strptime(s, fmt)` succeeds, for the five formats the source tries. -/
def strptimeOk (fmt : String) (s : String) : Bool :=
  if fmt = "%Y-%m-%d" then matchYMD s.data
  else if fmt = "%m/%d/%Y" then matchMDY s.data
  else if fmt = "%d/%m/%Y" then matchDMY s.data
  else if fmt = "%Y-%m-%dT%H:%M:%S" then matchYMDTime 'T' s.data
  else if fmt = "%Y-%m-%d %H:%M:%S" then matchYMDTime ' ' s.data
  else false

/-- The `date_formats` list of `validate_field_type`, in source order. -/
def dateFormats : List String :=
  ["%Y-%m-%d", "%m/%d/%Y", "%d/%m/%Y", "%Y-%m-%dT%H:%M:%S", "%Y-%m-%d %H:%M:%S"]

/-- The `for fmt in date_formats` loop: first successful parse wins, no match
yields the fixed failure reason. -/
def tryDateFormats : List String → String → Bool × String
  | [], _ => (false, "Date format not recognized")
  | fmt :: rest, s =>
      if strptimeOk fmt s then (true, "Valid date (format: " ++ fmt ++ ")")
      else tryDateFormats rest s

/-! ### `validate_field_type` -/

/-- Whether a string is one of the boolean spellings accepted by the source. -/
def boolSpelling (s : String) : Bool :=
  strLower s = "true" || strLower s = "false" || strLower s = "yes" ||
  strLower s = "no" || strLower s = "1" || strLower s = "0"

/-- Body of `validate_field_type`'s `try:` block (everything after the `None`
check); the only raising operation inside it is `float(value)`. -/
def validate_field_type_body (value : Value) (field_type : String) : Except PyErr (Bool × String) :=
  if strLower field_type = "string" then
    match value with
    | .str _ => .ok (true, "Valid string")
    | v => .ok (false, "Expected string, got " ++ pyTypeName v)
  else if strLower field_type = "number" then
    pyFloat value >>= fun _ => .ok (true, "Valid number")
  else if strLower field_type = "date" then
    match value with
    | .str s => .ok (tryDateFormats dateFormats s)
    | v => .ok (false, "Expected date string, got " ++ pyTypeName v)
  else if strLower field_type = "boolean" then
    match value with
    | .bool _ => .ok (true, "Valid boolean")
    | .str s =>
        if boolSpelling s then .ok (true, "Valid boolean string")
        else .ok (false, "Expected boolean, got str")
    | v => .ok (false, "Expected boolean, got " ++ pyTypeName v)
  else if strLower field_type = "enum" then
    .ok (true, "Enum type needs template validation")
  else
    .ok (false, "Unknown field type: " ++ field_type)

/-- `str(e)` of a caught exception. -/
def errStr : PyErr → String
  | .valueError m => m
  | .typeError m => m

/-- `validate_field_type(value, field_type)`: `None` is rejected up front;
the body runs under `try/except (ValueError, TypeError)` which converts any
raised coercion error into an invalid result wrapping the message. -/
def validate_field_type (value : Value) (field_type : String) : Bool × String :=
  if value = .null then (false, "Value is required")
  else
    match validate_field_type_body value field_type with
    | .ok r => r
    | .error e => (false, "Validation failed: " ++ errStr e)

/-! ### Templates and ordered dictionaries -/

/-- A field definition as read from the template dict: each component records
the result of the corresponding `.get`/`in` access in the source (`type`
defaults to `"string"`, `required` to false, `options` to `[]`; `min`, `max`,
`min_length`, `max_length`, `pattern` are presence-tested). -/
structure FieldDef where
  type : String
  required : Bool
  options : List Value
  min : Option ℚ
  max : Option ℚ
  min_length : Option Nat
  max_length : Option Nat
  pattern : Option String
deriving DecidableEq, Repr, Inhabited

/-- A template: `fields` is `some` exactly when the `'fields'` key is present. -/
structure Template where
  fields : Option (List (String × FieldDef))
deriving DecidableEq, Repr, Inhabited

/-- Dictionary lookup on an ordered association list (first occurrence wins,
matching a Python dict, whose keys are unique). -/
def lookupAL {α : Type} : List (String × α) → String → Option α
  | [], _ => Option.none
  | (k, v) :: rest, key => if k = key then some v else lookupAL rest key

/-- The keys of an association list. -/
def keysAL {α : Type} (l : List (String × α)) : List String :=
  l.map Prod.fst

/-- Python `key in dict`. -/
def memKey {α : Type} (l : List (String × α)) (k : String) : Bool :=
  (lookupAL l k).isSome

/-- Python `d[k] = v`: overwrite in place if the key exists, else append. -/
def dictInsert {α : Type} : List (String × α) → String → α → List (String × α)
  | [], k, v => [(k, v)]
  | (k', v') :: rest, k, v =>
      if k' = k then (k', v) :: rest else (k', v') :: dictInsert rest k v

/-! ### `validate_against_template` -/

/-- The confidence tiers the module emits. -/
inductive Confidence where
  | High
  | Medium
  | Low
deriving DecidableEq, Repr, Inhabited

/-- The string form of a confidence tier as stored in result dicts. -/
def confToString : Confidence → String
  | .High => "High"
  | .Medium => "Medium"
  | .Low => "Low"

/-- The result dict built by `validate_against_template`; `suggested_correction`
is `none` exactly when the Python value is `None`. -/
structure ValidationResult where
  is_valid : Bool
  confidence : Confidence
  reasoning : List String
  suggested_correction : Option Value
deriving DecidableEq, Repr, Inhabited

/-- Python `value is None or value == ''`. -/
def isEmptyVal (v : Value) : Bool :=
  v = .null || v = .str ""

/-- `', '.join(map(str, enum_values))`. -/
def joinComma (vs : List Value) : String :=
  String.intercalate ", " (vs.map pyStr)

/-- `re.match(pattern, s)` succeeds, modelled for literal patterns as an
anchored prefix test. -/
def reMatch (pattern s : String) : Bool :=
  pattern.data.isPrefixOf s.data

/-- The `max` half of the number constraint check (falls through to the
all-validations-passed result). -/
def numberCheckMax (reasoning : List String) (field_def : FieldDef) (num_value : ℚ) : ValidationResult :=
  match field_def.max with
  | some mx =>
      if num_value > mx then
        ⟨false, .Low,
          reasoning ++ ["Value " ++ ratRepr num_value ++ " is above maximum " ++ ratRepr mx],
          some (.float mx)⟩
      else ⟨true, .High, reasoning, Option.none⟩
  | Option.none => ⟨true, .High, reasoning, Option.none⟩

/-- The number constraint check: `min` bound, then `max` bound, each
short-circuiting to invalid/Low with the violated bound as the correction. -/
def numberCheck (reasoning : List String) (field_def : FieldDef) (num_value : ℚ) : ValidationResult :=
  match field_def.min with
  | some mn =>
      if num_value < mn then
        ⟨false, .Low,
          reasoning ++ ["Value " ++ ratRepr num_value ++ " is below minimum " ++ ratRepr mn],
          some (.float mn)⟩
      else numberCheckMax reasoning field_def num_value
  | Option.none => numberCheckMax reasoning field_def num_value

/-- The `pattern` constraint check of the string branch. -/
def stringCheckPattern (reasoning : List String) (field_def : FieldDef) (str_value : String) : ValidationResult :=
  match field_def.pattern with
  | some pat =>
      if !reMatch pat str_value then
        ⟨false, .Medium,
          reasoning ++ ["String does not match expected pattern: " ++ pat],
          Option.none⟩
      else ⟨true, .High, reasoning, Option.none⟩
  | Option.none => ⟨true, .High, reasoning, Option.none⟩

/-- The `max_length` constraint check of the string branch. -/
def stringCheckMax (reasoning : List String) (field_def : FieldDef) (str_value : String) : ValidationResult :=
  match field_def.max_length with
  | some mxl =>
      if str_value.length > mxl then
        ⟨false, .Medium,
          reasoning ++ ["String is too long (max " ++ toString mxl ++ " characters)"],
          Option.none⟩
      else stringCheckPattern reasoning field_def str_value
  | Option.none => stringCheckPattern reasoning field_def str_value

/-- The string constraint check: `min_length`, then `max_length`, then
`pattern`, each short-circuiting to invalid/Medium. -/
def stringCheck (reasoning : List String) (field_def : FieldDef) (str_value : String) : ValidationResult :=
  match field_def.min_length with
  | some mnl =>
      if str_value.length < mnl then
        ⟨false, .Medium,
          reasoning ++ ["String is too short (min " ++ toString mnl ++ " characters)"],
          Option.none⟩
      else stringCheckMax reasoning field_def str_value
  | Option.none => stringCheckMax reasoning field_def str_value

/-- `validate_against_template(field_name, value, template)` with raising
modelled explicitly: the one operation in it that can raise is the
`float(value)` of the number branch, which runs outside any `try`. -/
def validate_against_template_raw (field_name : String) (value : Value) (template : Template) : Except PyErr ValidationResult :=
  match lookupAL (template.fields.getD []) field_name with
  | Option.none =>
      .ok ⟨false, .Low, ["Field '" ++ field_name ++ "' not found in template"], Option.none⟩
  | some field_def =>
      if field_def.required && isEmptyVal value then
        .ok ⟨false, .Low, ["Required field is missing or empty"], Option.none⟩
      else if isEmptyVal value then
        .ok ⟨true, .High, ["Optional field is empty"], Option.none⟩
      else if !(validate_field_type value field_def.type).1 then
        .ok ⟨false, .Low,
          ["Type validation: " ++ (validate_field_type value field_def.type).2], Option.none⟩
      else if strLower field_def.type = "enum" then
        if !(field_def.options.map pyStr).contains (pyStr value) then
          .ok ⟨false, .Low,
            ["Type validation: " ++ (validate_field_type value field_def.type).2,
             "Value '" ++ pyStr value ++ "' not in allowed values: " ++ joinComma field_def.options],
            field_def.options.head?⟩
        else
          .ok ⟨true, .High,
            ["Type validation: " ++ (validate_field_type value field_def.type).2], Option.none⟩
      else if strLower field_def.type = "number" then
        pyFloat value >>= fun num_value =>
          .ok (numberCheck ["Type validation: " ++ (validate_field_type value field_def.type).2]
            field_def num_value)
      else if strLower field_def.type = "string" then
        .ok (stringCheck ["Type validation: " ++ (validate_field_type value field_def.type).2]
          field_def (pyStr value))
      else
        .ok ⟨true, .High,
          ["Type validation: " ++ (validate_field_type value field_def.type).2], Option.none⟩

/-- `validate_against_template` as the total function the rest of the module
calls; the default branch is unreachable (`validate_against_template_total`). -/
def validate_against_template (field_name : String) (value : Value) (template : Template) : ValidationResult :=
  match validate_against_template_raw field_name value template with
  | .ok r => r
  | .error _ => default

/-! ### `enhance_confidence_with_template` -/

/-- An entry of the enhanced-results dict; `suggested_correction` is `none`
exactly when the key is absent. -/
structure EnhancedResult where
  value : Value
  confidence : Confidence
  reasoning : List String
  is_valid : Bool
  suggested_correction : Option Value
deriving DecidableEq, Repr, Inhabited

/-- Wrap a validation outcome into an enhanced result; the
`suggested_correction` key is added only when the validation produced one. -/
def mkEnhanced (value : Value) (validation : ValidationResult) : EnhancedResult :=
  ⟨value, validation.confidence, validation.reasoning, validation.is_valid,
    validation.suggested_correction⟩

/-- The entry synthesized for a required field missing from the extracted data. -/
def missingRequired : EnhancedResult :=
  ⟨.null, .Low, ["Required field is missing"], false, Option.none⟩

/-- Python `field_name.startswith('_')`. -/
def startsUnderscore (s : String) : Bool :=
  match s.data with
  | c :: _ => c = '_'
  | [] => false

/-- The `for field_name, value in extracted_data.items()` loop: skip internal
(underscore-prefixed) fields, validate the rest, store an enhanced result. -/
def processFields (template : Template) : List (String × Value) → List (String × EnhancedResult) → List (String × EnhancedResult)
  | [], acc => acc
  | (field_name, value) :: rest, acc =>
      if startsUnderscore field_name then processFields template rest acc
      else
        processFields template rest
          (dictInsert acc field_name (mkEnhanced value (validate_against_template field_name value template)))

/-- The missing-required-field sweep over the template's declared fields. -/
def sweepRequired : List (String × FieldDef) → List (String × EnhancedResult) → List (String × EnhancedResult)
  | [], acc => acc
  | (field_name, field_def) :: rest, acc =>
      if field_def.required && !memKey acc field_name then
        sweepRequired rest (dictInsert acc field_name missingRequired)
      else sweepRequired rest acc

/-- `enhance_confidence_with_template(extracted_data, template)`. -/
def enhance_confidence_with_template (extracted_data : List (String × Value)) (template : Template) : List (String × EnhancedResult) :=
  let enhanced_results := processFields template extracted_data []
  match template.fields with
  | some flds => sweepRequired flds enhanced_results
  | Option.none => enhanced_results

/-! ### `calculate_overall_confidence` and `format_confidence_results` -/

/-- `calculate_overall_confidence(enhanced_results)`: the float percentages of
the source are modelled as exact rationals. -/
def calculate_overall_confidence (enhanced_results : List (String × EnhancedResult)) : Confidence :=
  if enhanced_results.isEmpty then .Low
  else
    let total_fields : ℚ := (enhanced_results.length : ℚ)
    let high_pct : ℚ :=
      (enhanced_results.countP (fun p => p.2.confidence == Confidence.High) : ℚ) / total_fields
    let medium_pct : ℚ :=
      (enhanced_results.countP (fun p => p.2.confidence == Confidence.Medium) : ℚ) / total_fields
    if high_pct ≥ 0.7 then .High
    else if high_pct + medium_pct ≥ 0.6 then .Medium
    else .Low

/-- The per-field loop of `format_confidence_results`, threading the
`formatted` dict: the value under the field name, the confidence under the
`_confidence` key, and (with reasoning requested and present) the joined
reasoning under the `_reasoning` key. -/
def formatLoop (include_reasoning : Bool) : List (String × EnhancedResult) → List (String × Value) → List (String × Value)
  | [], formatted => formatted
  | (field_name, field_data) :: rest, formatted =>
      formatLoop include_reasoning rest
        (if include_reasoning && !field_data.reasoning.isEmpty then
          dictInsert
            (dictInsert (dictInsert formatted field_name field_data.value)
              (field_name ++ "_confidence") (.str (confToString field_data.confidence)))
            (field_name ++ "_reasoning") (.str (String.intercalate " " field_data.reasoning))
        else
          dictInsert (dictInsert formatted field_name field_data.value)
            (field_name ++ "_confidence") (.str (confToString field_data.confidence)))

/-- `format_confidence_results(enhanced_results, include_reasoning)`. -/
def format_confidence_results (enhanced_results : List (String × EnhancedResult)) (include_reasoning : Bool) : List (String × Value) :=
  dictInsert (formatLoop include_reasoning enhanced_results [])
    "_overall_confidence" (.str (confToString (calculate_overall_confidence enhanced_results)))

/-! ### Spec-side characterizations and concrete inputs used by the claims -/

/-- Whether some declared template field named `f` is marked required (the
condition under which the missing-required sweep can synthesize an entry). -/
def requiredAny (t : Template) (f : String) : Bool :=
  (t.fields.getD []).any (fun p => p.1 == f && p.2.required)

/-- Number of entries with High confidence. -/
def countHigh (er : List (String × EnhancedResult)) : Nat :=
  er.countP (fun p => p.2.confidence == Confidence.High)

/-- Number of entries with Medium confidence. -/
def countMedium (er : List (String × EnhancedResult)) : Nat :=
  er.countP (fun p => p.2.confidence == Confidence.Medium)

/-- The entries `format_confidence_results` emits for the fields, in emission
order, before the trailing overall-confidence entry (its key set is what the
spec's round-trip property is about). -/
def flatEntries (include_reasoning : Bool) : List (String × EnhancedResult) → List (String × Value)
  | [] => []
  | (f, d) :: rest =>
      (f, d.value) ::
      (f ++ "_confidence", .str (confToString d.confidence)) ::
      ((if include_reasoning && !d.reasoning.isEmpty then
          [(f ++ "_reasoning", .str (String.intercalate " " d.reasoning))]
        else []) ++ flatEntries include_reasoning rest)

/-- All keys `format_confidence_results` writes: per-field derived keys plus
the single trailing `_overall_confidence`. -/
def emittedKeys (er : List (String × EnhancedResult)) (include_reasoning : Bool) : List String :=
  keysAL (flatEntries include_reasoning er) ++ ["_overall_confidence"]

/-- The verdict invariant every validation result satisfies: the confidence is
one of the three tiers, a valid result is always High, and a suggested
correction accompanies only invalid Low results. -/
def validInvariant (iv : Bool) (c : Confidence) (sc : Option Value) : Prop :=
  (c = Confidence.High ∨ c = Confidence.Medium ∨ c = Confidence.Low) ∧
  (iv = true → c = Confidence.High) ∧
  (sc ≠ Option.none → iv = false ∧ c = Confidence.Low)

/-- A field definition with everything defaulted (`{'type': 'string'}` absent
entries). -/
def fdBase : FieldDef :=
  ⟨"string", false, [], Option.none, Option.none, Option.none, Option.none, Option.none⟩

/-- `{type: enum, options: [open, closed]}`. -/
def fdStatus : FieldDef :=
  ⟨"enum", false, [.str "open", .str "closed"], Option.none, Option.none, Option.none,
    Option.none, Option.none⟩

/-- `{type: number, min: 0, max: 1000}`. -/
def fdAmount : FieldDef :=
  ⟨"number", false, [], some 0, some 1000, Option.none, Option.none, Option.none⟩

/-- `{type: string, required: true}`. -/
def fdRequiredString : FieldDef :=
  ⟨"string", true, [], Option.none, Option.none, Option.none, Option.none, Option.none⟩

/-- `{fields: {status: {type: enum, options: [open, closed]}}}`. -/
def tEnum : Template := ⟨some [("status", fdStatus)]⟩

/-- `{fields: {amount: {type: number, min: 0, max: 1000}}}`. -/
def tNum : Template := ⟨some [("amount", fdAmount)]⟩

/-- `{fields: {id: {type: string, required: true}}}`. -/
def tReq : Template := ⟨some [("id", fdRequiredString)]⟩

/-- A template that declares a required field whose name begins with an
underscore. -/
def tReqUnderscore : Template := ⟨some [("_x", fdRequiredString)]⟩

/-- An enhanced entry with the given confidence and no reasoning. -/
def entryWithConf (c : Confidence) : EnhancedResult :=
  ⟨.str "v", c, [], true, Option.none⟩

/-- Five fields with confidences High, High, High, High, Low. -/
def erFourHigh : List (String × EnhancedResult) :=
  [("a", entryWithConf .High), ("b", entryWithConf .High), ("c", entryWithConf .High),
   ("d", entryWithConf .High), ("e", entryWithConf .Low)]

/-- Five fields with confidences High, Medium, Medium, Low, Low. -/
def erMixed : List (String × EnhancedResult) :=
  [("a", entryWithConf .High), ("b", entryWithConf .Medium), ("c", entryWithConf .Medium),
   ("d", entryWithConf .Low), ("e", entryWithConf .Low)]

/-- Three fields, all Low. -/
def erAllLow : List (String × EnhancedResult) :=
  [("a", entryWithConf .Low), ("b", entryWithConf .Low), ("c", entryWithConf .Low)]

/-- A single enhanced field with reasoning, for exercising the flattening. -/
def erSingle : List (String × EnhancedResult) :=
  [("a", ⟨.str "v", .High, ["r1", "r2"], true, Option.none⟩)]

/-- Two fields whose names collide under the flattening key convention:
the second field is literally named `a_confidence`. -/
def erCollide : List (String × EnhancedResult) :=
  [("a", ⟨.str "v", .High, [], true, Option.none⟩),
   ("a_confidence", ⟨.str "w", .High, [], true, Option.none⟩)]

/-! ## Dictionary lemmas -/

theorem lookupAL_dictInsert_self {α : Type} (l : List (String × α)) (k : String) (v : α) :
    lookupAL (dictInsert l k v) k = some v := by
  induction l with
  | nil => simp [dictInsert, lookupAL]
  | cons p rest ih =>
    obtain ⟨k', v'⟩ := p
    by_cases h : k' = k <;> simp [dictInsert, lookupAL, h, ih]

theorem lookupAL_dictInsert_ne {α : Type} (l : List (String × α)) (k f : String) (v : α)
    (h : f ≠ k) : lookupAL (dictInsert l k v) f = lookupAL l f := by
  have hk : k ≠ f := Ne.symm h
  induction l with
  | nil => simp [dictInsert, lookupAL, hk]
  | cons p rest ih =>
    obtain ⟨k', v'⟩ := p
    by_cases h1 : k' = k
    · subst h1
      simp [dictInsert, lookupAL, hk]
    · by_cases h2 : k' = f <;> simp [dictInsert, lookupAL, h1, h2, h, ih]

theorem lookupAL_isSome_iff_mem {α : Type} (l : List (String × α)) (k : String) :
    (lookupAL l k).isSome = true ↔ k ∈ keysAL l := by
  induction l with
  | nil => simp [lookupAL, keysAL]
  | cons p rest ih =>
    obtain ⟨k', v'⟩ := p
    by_cases h : k' = k
    · subst h
      simp [lookupAL, keysAL]
    · have h' : ¬ k = k' := fun he => h he.symm
      simp [lookupAL, keysAL, h, h', ih]

theorem lookupAL_eq_none_of_not_mem {α : Type} (l : List (String × α)) (k : String)
    (h : k ∉ keysAL l) : lookupAL l k = Option.none := by
  cases hl : lookupAL l k with
  | none => rfl
  | some v =>
    exact absurd ((lookupAL_isSome_iff_mem l k).mp (by simp [hl])) h

theorem keysAL_dictInsert {α : Type} (l : List (String × α)) (k : String) (v : α) :
    keysAL (dictInsert l k v) = if k ∈ keysAL l then keysAL l else keysAL l ++ [k] := by
  induction l with
  | nil => simp [dictInsert, keysAL]
  | cons p rest ih =>
    obtain ⟨k', v'⟩ := p
    by_cases h : k' = k
    · subst h
      simp [dictInsert, keysAL]
    · have hks : ¬ k = k' := fun h' => h h'.symm
      simp only [dictInsert, if_neg h, keysAL, List.map_cons]
      simp only [keysAL] at ih
      rw [ih]
      by_cases h2 : k ∈ List.map Prod.fst rest
      · simp [h2, hks]
      · simp [h2, hks]

theorem keysAL_nodup_dictInsert {α : Type} (l : List (String × α)) (k : String) (v : α)
    (h : (keysAL l).Nodup) : (keysAL (dictInsert l k v)).Nodup := by
  rw [keysAL_dictInsert]
  by_cases hm : k ∈ keysAL l
  · rw [if_pos hm]
    exact h
  · rw [if_neg hm]
    refine List.Nodup.append h (List.nodup_singleton k) ?_
    intro a ha hb
    simp only [List.mem_singleton] at hb
    exact hm (hb ▸ ha)

theorem dictInsert_of_fresh {α : Type} (l : List (String × α)) (k : String) (v : α)
    (h : k ∉ keysAL l) : dictInsert l k v = l ++ [(k, v)] := by
  induction l with
  | nil => simp [dictInsert]
  | cons p rest ih =>
    obtain ⟨k', v'⟩ := p
    simp only [keysAL, List.map_cons, List.mem_cons] at h
    push_neg at h
    have h1 : ¬ k' = k := fun h' => h.1 h'.symm
    simp [dictInsert, h1, ih (by simpa [keysAL] using h.2)]

theorem lookupAL_append {α : Type} (l1 l2 : List (String × α)) (k : String) :
    lookupAL (l1 ++ l2) k =
      match lookupAL l1 k with
      | some v => some v
      | Option.none => lookupAL l2 k := by
  induction l1 with
  | nil => simp [lookupAL]
  | cons p rest ih =>
    obtain ⟨k', v'⟩ := p
    by_cases h : k' = k <;> simp [lookupAL, h, ih]

theorem lookupAL_eq_some_of_mem_nodup {α : Type} (l : List (String × α)) (k : String) (v : α)
    (hnd : (keysAL l).Nodup) (hm : (k, v) ∈ l) : lookupAL l k = some v := by
  induction l with
  | nil => simp at hm
  | cons p rest ih =>
    obtain ⟨k', v'⟩ := p
    simp only [keysAL, List.map_cons, List.nodup_cons] at hnd
    rcases List.mem_cons.mp hm with h | h
    · injection h with h1 h2
      subst h1
      subst h2
      simp [lookupAL]
    · have hk : ¬ k' = k := by
        intro he
        subst he
        exact hnd.1 (by simpa using List.mem_map_of_mem Prod.fst h)
      simp [lookupAL, hk, ih (by simpa [keysAL] using hnd.2) h]

theorem lookupAL_map_value {α β : Type} (g : α → β) (l : List (String × α)) (k : String) :
    lookupAL (l.map (fun p => (p.1, g p.2))) k = (lookupAL l k).map g := by
  induction l with
  | nil => simp [lookupAL]
  | cons p rest ih =>
    obtain ⟨k', v'⟩ := p
    by_cases h : k' = k <;> simp [lookupAL, h, ih]

theorem keysAL_map_value {α β : Type} (g : α → β) (l : List (String × α)) :
    keysAL (l.map (fun p => (p.1, g p.2))) = keysAL l := by
  induction l with
  | nil => rfl
  | cons p rest ih =>
    simp only [keysAL, List.map_cons] at ih ⊢
    rw [ih]

theorem keysAL_cons {α : Type} (k : String) (v : α) (l : List (String × α)) :
    keysAL ((k, v) :: l) = k :: keysAL l := rfl

theorem lookupAL_cons {α : Type} (k : String) (v : α) (l : List (String × α)) (f : String) :
    lookupAL ((k, v) :: l) f = if k = f then some v else lookupAL l f := rfl

/-! ## Characterization of `enhance_confidence_with_template` -/

theorem processFields_keys_nodup (t : Template) (e : List (String × Value))
    (acc : List (String × EnhancedResult)) (h : (keysAL acc).Nodup) :
    (keysAL (processFields t e acc)).Nodup := by
  induction e generalizing acc with
  | nil => exact h
  | cons p rest ih =>
    obtain ⟨f, v⟩ := p
    by_cases hu : startsUnderscore f
    · simpa [processFields, hu] using ih acc h
    · simpa [processFields, hu] using ih _ (keysAL_nodup_dictInsert _ _ _ h)

theorem sweepRequired_keys_nodup (flds : List (String × FieldDef))
    (acc : List (String × EnhancedResult)) (h : (keysAL acc).Nodup) :
    (keysAL (sweepRequired flds acc)).Nodup := by
  induction flds generalizing acc with
  | nil => exact h
  | cons p rest ih =>
    obtain ⟨f, fd⟩ := p
    by_cases hc : fd.required && !memKey acc f
    · simpa [sweepRequired, hc] using ih _ (keysAL_nodup_dictInsert _ _ _ h)
    · simpa [sweepRequired, hc] using ih acc h

theorem enhance_keys_nodup (e : List (String × Value)) (t : Template) :
    (keysAL (enhance_confidence_with_template e t)).Nodup := by
  unfold enhance_confidence_with_template
  cases t.fields with
  | none => exact processFields_keys_nodup _ _ _ (by simp [keysAL])
  | some flds => exact sweepRequired_keys_nodup _ _ (processFields_keys_nodup _ _ _ (by simp [keysAL]))

theorem processFields_lookup (t : Template) (e : List (String × Value))
    (acc : List (String × EnhancedResult)) (f : String)
    (hnd : (keysAL e).Nodup) (hdisj : ∀ k ∈ keysAL e, k ∉ keysAL acc) :
    lookupAL (processFields t e acc) f =
      match lookupAL e f with
      | some v =>
          if startsUnderscore f then lookupAL acc f
          else some (mkEnhanced v (validate_against_template f v t))
      | Option.none => lookupAL acc f := by
  induction e generalizing acc with
  | nil => simp [processFields, lookupAL]
  | cons p rest ih =>
    obtain ⟨g, v⟩ := p
    rw [keysAL_cons, List.nodup_cons] at hnd
    have hdisjr : ∀ k ∈ keysAL rest, k ∉ keysAL acc := by
      intro k hk
      exact hdisj k (by rw [keysAL_cons]; exact List.mem_cons_of_mem _ hk)
    by_cases hu : startsUnderscore g
    · rw [show processFields t ((g, v) :: rest) acc = processFields t rest acc by
        simp [processFields, hu]]
      rw [ih acc hnd.2 hdisjr]
      by_cases hf : g = f
      · subst hf
        rw [lookupAL_eq_none_of_not_mem rest g hnd.1]
        simp [lookupAL_cons, hu]
      · simp [lookupAL_cons, hf]
    · rw [show processFields t ((g, v) :: rest) acc =
          processFields t rest
            (dictInsert acc g (mkEnhanced v (validate_against_template g v t))) by
        simp [processFields, hu]]
      have hdisj' : ∀ k ∈ keysAL rest,
          k ∉ keysAL (dictInsert acc g (mkEnhanced v (validate_against_template g v t))) := by
        intro k hk
        rw [keysAL_dictInsert]
        have hkg : k ≠ g := fun he => hnd.1 (he ▸ hk)
        by_cases hm : g ∈ keysAL acc
        · simpa [hm] using hdisjr k hk
        · simp only [hm, if_false, List.mem_append, List.mem_singleton]
          push_neg
          exact ⟨hdisjr k hk, hkg⟩
      rw [ih _ hnd.2 hdisj']
      by_cases hf : g = f
      · subst hf
        rw [lookupAL_eq_none_of_not_mem rest g hnd.1]
        simp [lookupAL_cons, hu, lookupAL_dictInsert_self]
      · have hf' : f ≠ g := fun he => hf he.symm
        rw [lookupAL_cons, if_neg hf]
        cases hr : lookupAL rest f with
        | none => simp [lookupAL_dictInsert_ne acc g f _ hf']
        | some v' => simp [lookupAL_dictInsert_ne acc g f _ hf']

theorem sweepRequired_lookup (flds : List (String × FieldDef))
    (acc : List (String × EnhancedResult)) (f : String) :
    lookupAL (sweepRequired flds acc) f =
      match lookupAL acc f with
      | some r => some r
      | Option.none =>
          if flds.any (fun p => p.1 == f && p.2.required) then some missingRequired
          else Option.none := by
  induction flds generalizing acc with
  | nil =>
    cases h : lookupAL acc f <;> simp [sweepRequired, h]
  | cons p rest ih =>
    obtain ⟨g, fd⟩ := p
    by_cases hc : fd.required && !memKey acc g
    · rw [show sweepRequired ((g, fd) :: rest) acc =
          sweepRequired rest (dictInsert acc g missingRequired) by simp [sweepRequired, hc]]
      rw [ih]
      simp only [Bool.and_eq_true, Bool.not_eq_true'] at hc
      by_cases hf : g = f
      · subst hf
        have hacc : lookupAL acc g = Option.none := by
          have := hc.2
          simp only [memKey] at this
          cases h : lookupAL acc g with
          | none => rfl
          | some r => rw [h] at this; simp at this
        rw [hacc]
        simp [lookupAL_dictInsert_self, hc.1]
      · have hf' : f ≠ g := fun he => hf he.symm
        rw [lookupAL_dictInsert_ne acc g f _ hf']
        cases h : lookupAL acc f with
        | none =>
          have h2 : (g == f && fd.required || rest.any fun p => p.1 == f && p.2.required) =
              (rest.any fun p => p.1 == f && p.2.required) := by
            simp [hf]
          rw [List.any_cons, h2]
        | some r => simp
    · rw [show sweepRequired ((g, fd) :: rest) acc = sweepRequired rest acc by
        simp [sweepRequired, hc]]
      rw [ih]
      cases h : lookupAL acc f with
      | some r => simp
      | none =>
        by_cases hf : g = f
        · subst hf
          have hmem : memKey acc g = false := by simp [memKey, h]
          rw [hmem] at hc
          simp only [Bool.not_false, Bool.and_true] at hc
          have hreq : fd.required = false := by
            cases hr : fd.required
            · rfl
            · exact absurd hr hc
          have h2 : (g == g && fd.required || rest.any fun p => p.1 == g && p.2.required) =
              (rest.any fun p => p.1 == g && p.2.required) := by
            simp [hreq]
          rw [List.any_cons, h2]
        · have h2 : (g == f && fd.required || rest.any fun p => p.1 == f && p.2.required) =
              (rest.any fun p => p.1 == f && p.2.required) := by
            simp [hf]
          rw [List.any_cons, h2]

theorem enhance_lookup (e : List (String × Value)) (t : Template) (f : String)
    (hnd : (keysAL e).Nodup) :
    lookupAL (enhance_confidence_with_template e t) f =
      match (if startsUnderscore f then Option.none else lookupAL e f) with
      | some v => some (mkEnhanced v (validate_against_template f v t))
      | Option.none =>
          if requiredAny t f then some missingRequired else Option.none := by
  have hproc := processFields_lookup t e [] f hnd (by simp [keysAL])
  unfold enhance_confidence_with_template
  cases ht : t.fields with
  | none =>
    simp only
    rw [hproc]
    cases hl : lookupAL e f with
    | none => simp [lookupAL, requiredAny, ht]
    | some v =>
      by_cases hu : startsUnderscore f <;>
        simp [hu, lookupAL, requiredAny, ht]
  | some flds =>
    simp only
    rw [sweepRequired_lookup, hproc]
    simp only [requiredAny, ht, Option.getD_some]
    cases hl : lookupAL e f with
    | none => simp [lookupAL]
    | some v =>
      by_cases hu : startsUnderscore f <;> simp [hu, lookupAL]

/-! ## Totality of the raw (exception-aware) validation -/

theorem pyFloat_ok_of_number_valid (v : Value) (ft : String)
    (hft : strLower ft = "number") (hv : (validate_field_type v ft).1 = true) :
    ∃ q, pyFloat v = .ok q := by
  cases hq : pyFloat v with
  | ok q => exact ⟨q, rfl⟩
  | error e =>
    exfalso
    unfold validate_field_type at hv
    by_cases hn : v = .null
    · rw [if_pos hn] at hv
      simp at hv
    · rw [if_neg hn] at hv
      unfold validate_field_type_body at hv
      have hs : ¬ strLower ft = "string" := by rw [hft]; decide
      rw [if_neg hs, if_pos hft, hq] at hv
      simp [Bind.bind, Except.bind] at hv

theorem validate_raw_isOk (f : String) (v : Value) (t : Template) :
    (validate_against_template_raw f v t).isOk = true := by
  unfold validate_against_template_raw
  cases hl : lookupAL (t.fields.getD []) f with
  | none => rfl
  | some fd =>
    dsimp only
    by_cases h1 : (fd.required && isEmptyVal v) = true
    · rw [if_pos h1]
      rfl
    · rw [if_neg h1]
      by_cases h2 : isEmptyVal v = true
      · rw [if_pos h2]
        rfl
      · rw [if_neg h2]
        by_cases h3 : (!(validate_field_type v fd.type).1) = true
        · rw [if_pos h3]
          rfl
        · rw [if_neg h3]
          by_cases h4 : strLower fd.type = "enum"
          · rw [if_pos h4]
            by_cases h5 : (!(fd.options.map pyStr).contains (pyStr v)) = true
            · rw [if_pos h5]
              rfl
            · rw [if_neg h5]
              rfl
          · rw [if_neg h4]
            by_cases h6 : strLower fd.type = "number"
            · rw [if_pos h6]
              have h3' : (validate_field_type v fd.type).1 = true := by
                cases hb : (validate_field_type v fd.type).1
                · rw [hb] at h3
                  exact absurd rfl h3
                · rfl
              obtain ⟨q, hq⟩ := pyFloat_ok_of_number_valid v fd.type h6 h3'
              rw [show (pyFloat v >>= fun num_value =>
                    Except.ok (numberCheck
                      ["Type validation: " ++ (validate_field_type v fd.type).2] fd num_value)) =
                  Except.ok (numberCheck
                    ["Type validation: " ++ (validate_field_type v fd.type).2] fd q) by
                rw [hq]
                rfl]
              rfl
            · rw [if_neg h6]
              by_cases h7 : strLower fd.type = "string"
              · rw [if_pos h7]
                rfl
              · rw [if_neg h7]
                rfl

theorem validate_raw_eq (f : String) (v : Value) (t : Template) :
    validate_against_template_raw f v t = .ok (validate_against_template f v t) := by
  have h := validate_raw_isOk f v t
  cases hr : validate_against_template_raw f v t with
  | ok r =>
    unfold validate_against_template
    rw [hr]
  | error e =>
    rw [hr] at h
    exact absurd h (by simp [Except.isOk, Except.toBool])

/-! ## The date-format race -/

theorem tryDateFormats_eq_find (l : List String) (s : String) :
    tryDateFormats l s =
      match l.find? (fun fmt => strptimeOk fmt s) with
      | some fmt => (true, "Valid date (format: " ++ fmt ++ ")")
      | Option.none => (false, "Date format not recognized") := by
  induction l with
  | nil => rfl
  | cons fmt rest ih =>
    by_cases h : strptimeOk fmt s
    · simp [tryDateFormats, h, List.find?_cons_of_pos _ h]
    · rw [show tryDateFormats (fmt :: rest) s = tryDateFormats rest s by
        simp [tryDateFormats, h]]
      rw [List.find?_cons_of_neg _ (by simp [h]), ih]

theorem validate_date_eq (s : String) :
    validate_field_type (.str s) "date" =
      match dateFormats.find? (fun fmt => strptimeOk fmt s) with
      | some fmt => (true, "Valid date (format: " ++ fmt ++ ")")
      | Option.none => (false, "Date format not recognized") := by
  rw [← tryDateFormats_eq_find]
  rfl

/-! ## Threshold arithmetic of the overall confidence -/

theorem calculate_overall_eq_nat (er : List (String × EnhancedResult)) (h : er ≠ []) :
    calculate_overall_confidence er =
      (if 7 * er.length ≤ 10 * countHigh er then .High
       else if 6 * er.length ≤ 10 * (countHigh er + countMedium er) then .Medium
       else .Low) := by
  have hne : er.isEmpty = false := by
    cases er with
    | nil => exact absurd rfl h
    | cons a l => rfl
  have hL0 : 0 < er.length := List.length_pos.mpr h
  have hL : 0 < (er.length : ℚ) := by exact_mod_cast hL0
  have e1 : ((countHigh er : ℚ) / (er.length : ℚ) ≥ 0.7) ↔
      (7 * er.length ≤ 10 * countHigh er) := by
    rw [ge_iff_le, le_div_iff₀ hL]
    constructor
    · intro h1
      have h2 : (7 : ℚ) * er.length ≤ 10 * countHigh er := by nlinarith
      exact_mod_cast h2
    · intro h1
      have h2 : (7 : ℚ) * er.length ≤ 10 * countHigh er := by exact_mod_cast h1
      nlinarith
  have e2 : ((countHigh er : ℚ) / (er.length : ℚ) + (countMedium er : ℚ) / (er.length : ℚ) ≥ 0.6) ↔
      (6 * er.length ≤ 10 * (countHigh er + countMedium er)) := by
    rw [div_add_div_same, ge_iff_le, le_div_iff₀ hL]
    constructor
    · intro h1
      have h2 : (6 : ℚ) * er.length ≤ 10 * (countHigh er + countMedium er) := by
        nlinarith
      exact_mod_cast h2
    · intro h1
      have h2 : (6 : ℚ) * er.length ≤ 10 * ((countHigh er : ℚ) + (countMedium er : ℚ)) := by
        exact_mod_cast h1
      nlinarith
  simp only [calculate_overall_confidence, hne, Bool.false_eq_true, if_false, countHigh,
    countMedium] at e1 e2 ⊢
  exact if_congr e1 rfl (if_congr e2 rfl rfl)

/-! ## Claims -/

/-- C1: `calculate_overall_confidence` returns Low for an empty enhanced-results
mapping; on a non-empty mapping it returns High when the High fraction is at
least 0.70 (equivalently `7·total ≤ 10·count(High)`), else Medium when the
High+Medium fraction is at least 0.60, else Low; in particular
`[High,High,High,High,Low] → High`, `[High,Medium,Medium,Low,Low] → Medium`,
`[Low,Low,Low] → Low`. -/
theorem claim_C1 :
    calculate_overall_confidence [] = Confidence.Low ∧
    (∀ er, er ≠ [] →
      calculate_overall_confidence er =
        (if 7 * er.length ≤ 10 * countHigh er then Confidence.High
         else if 6 * er.length ≤ 10 * (countHigh er + countMedium er) then Confidence.Medium
         else Confidence.Low)) ∧
    calculate_overall_confidence erFourHigh = Confidence.High ∧
    calculate_overall_confidence erMixed = Confidence.Medium ∧
    calculate_overall_confidence erAllLow = Confidence.Low := by
  refine ⟨rfl, calculate_overall_eq_nat, ?_, ?_, ?_⟩
  · rw [calculate_overall_eq_nat _ (by decide)]
    decide
  · rw [calculate_overall_eq_nat _ (by decide)]
    decide
  · rw [calculate_overall_eq_nat _ (by decide)]
    decide

/-- Witness for C1: the non-empty characterization instantiated at the
all-Low three-field mapping. -/
theorem claim_C1_witness :
    erAllLow ≠ [] ∧
    calculate_overall_confidence erAllLow =
      (if 7 * erAllLow.length ≤ 10 * countHigh erAllLow then Confidence.High
       else if 6 * erAllLow.length ≤ 10 * (countHigh erAllLow + countMedium erAllLow) then
         Confidence.Medium
       else Confidence.Low) :=
  ⟨by decide, claim_C1.2.1 erAllLow (by decide)⟩

/-- C2: date validation of a string tries the five formats in source order and
the first successful parse wins (`01/02/2023` is claimed by `%m/%d/%Y`, the
first format having failed; `2023-01-01` by `%Y-%m-%d`); a string matching no
format is invalid with reason "Date format not recognized"; a non-string value
is invalid for type date. -/
theorem claim_C2 :
    validate_field_type (.str "01/02/2023") "date" =
      (true, "Valid date (format: %m/%d/%Y)") ∧
    strptimeOk "%Y-%m-%d" "01/02/2023" = false ∧
    strptimeOk "%m/%d/%Y" "01/02/2023" = true ∧
    validate_field_type (.str "2023-01-01") "date" =
      (true, "Valid date (format: %Y-%m-%d)") ∧
    validate_field_type (.str "13/45/2023") "date" =
      (false, "Date format not recognized") ∧
    (∀ s, validate_field_type (.str s) "date" =
      match dateFormats.find? (fun fmt => strptimeOk fmt s) with
      | some fmt => (true, "Valid date (format: " ++ fmt ++ ")")
      | Option.none => (false, "Date format not recognized")) ∧
    (∀ v, (∀ s, v ≠ Value.str s) → (validate_field_type v "date").1 = false) := by
  refine ⟨by decide, by decide, by decide, by decide, by decide, validate_date_eq, ?_⟩
  intro v hv
  cases v with
  | null => rfl
  | str s => exact absurd rfl (hv s)
  | int n => rfl
  | float q => rfl
  | bool b => rfl

/-- Witness for C2: the non-string clause instantiated at an integer value. -/
theorem claim_C2_witness : (validate_field_type (Value.int 5) "date").1 = false :=
  claim_C2.2.2.2.2.2.2 (Value.int 5) (fun _ h => Value.noConfusion h)

/-- C4: an enum-typed template field with a non-empty value whose string form
equals none of the options' string forms validates as invalid, Low confidence,
with the first declared option (`head?`) as the suggested correction. -/
theorem claim_C4 (t : Template) (f : String) (fd : FieldDef) (v : Value)
    (hfd : lookupAL (t.fields.getD []) f = some fd)
    (htype : strLower fd.type = "enum")
    (hv : isEmptyVal v = false)
    (hmem : (fd.options.map pyStr).contains (pyStr v) = false) :
    validate_against_template f v t =
      ⟨false, Confidence.Low,
       ["Type validation: Enum type needs template validation",
        "Value '" ++ pyStr v ++ "' not in allowed values: " ++ joinComma fd.options],
       fd.options.head?⟩ := by
  have hn : ¬ v = Value.null := by
    intro h
    subst h
    simp [isEmptyVal] at hv
  have htv : validate_field_type v fd.type = (true, "Enum type needs template validation") := by
    unfold validate_field_type
    rw [if_neg hn]
    unfold validate_field_type_body
    rw [if_neg (by rw [htype]; decide), if_neg (by rw [htype]; decide),
      if_neg (by rw [htype]; decide), if_neg (by rw [htype]; decide), if_pos htype]
  have hraw : validate_against_template_raw f v t =
      .ok ⟨false, Confidence.Low,
        ["Type validation: Enum type needs template validation",
         "Value '" ++ pyStr v ++ "' not in allowed values: " ++ joinComma fd.options],
        fd.options.head?⟩ := by
    unfold validate_against_template_raw
    rw [hfd]
    dsimp only
    rw [if_neg (by rw [hv]; simp), if_neg (by rw [hv]; simp),
      if_neg (by rw [htv]; decide), if_pos htype, if_pos (by rw [hmem]; rfl), htv]
    rfl
  unfold validate_against_template
  rw [hraw]

/-- Witness for C4: template `{status: {type: enum, options: [open, closed]}}`
with value `"pending"`. -/
theorem claim_C4_witness :
    validate_against_template "status" (Value.str "pending") tEnum =
      ⟨false, Confidence.Low,
       ["Type validation: Enum type needs template validation",
        "Value 'pending' not in allowed values: open, closed"],
       some (Value.str "open")⟩ :=
  (claim_C4 tEnum "status" fdStatus (Value.str "pending")
    (by rfl) (by decide) (by decide) (by decide)).trans (by decide)

/-- Helper: a template field with an empty (null or empty-string) value
short-circuits on the required/optional check. -/
theorem validate_empty_eq (t : Template) (f : String) (fd : FieldDef) (v : Value)
    (hfd : lookupAL (t.fields.getD []) f = some fd)
    (hv : isEmptyVal v = true) :
    validate_against_template f v t =
      (if fd.required then
        ⟨false, Confidence.Low, ["Required field is missing or empty"], Option.none⟩
       else ⟨true, Confidence.High, ["Optional field is empty"], Option.none⟩) := by
  cases hreq : fd.required with
  | true =>
    have hraw : validate_against_template_raw f v t =
        .ok ⟨false, Confidence.Low, ["Required field is missing or empty"], Option.none⟩ := by
      unfold validate_against_template_raw
      rw [hfd]
      dsimp only
      rw [if_pos (by rw [hreq, hv]; rfl)]
    unfold validate_against_template
    rw [hraw]
    rfl
  | false =>
    have hraw : validate_against_template_raw f v t =
        .ok ⟨true, Confidence.High, ["Optional field is empty"], Option.none⟩ := by
      unfold validate_against_template_raw
      rw [hfd]
      dsimp only
      rw [if_neg (by rw [hreq, hv]; decide), if_pos hv]
    unfold validate_against_template
    rw [hraw]
    rfl

/-- C5: a template field whose value is null or the empty string short-circuits:
invalid/Low with reasoning exactly "Required field is missing or empty" when
required, valid/High with reasoning exactly "Optional field is empty" when not;
no type or constraint check contributes to the result. -/
theorem claim_C5 (t : Template) (f : String) (fd : FieldDef) (v : Value)
    (hfd : lookupAL (t.fields.getD []) f = some fd)
    (hv : isEmptyVal v = true) :
    validate_against_template f v t =
      (if fd.required then
        ⟨false, Confidence.Low, ["Required field is missing or empty"], Option.none⟩
       else ⟨true, Confidence.High, ["Optional field is empty"], Option.none⟩) :=
  validate_empty_eq t f fd v hfd hv

/-- Witness for C5: required `id` with a null value. -/
theorem claim_C5_witness :
    validate_against_template "id" Value.null tReq =
      ⟨false, Confidence.Low, ["Required field is missing or empty"], Option.none⟩ :=
  (claim_C5 tReq "id" fdRequiredString Value.null (by rfl) (by rfl)).trans (by decide)

/-- C8: no exception escapes the core: the exception-aware model of
`validate_against_template` always returns normally with the total function's
result (in particular the unguarded `float(value)` in the number branch cannot
raise); any error the `validate_field_type` body raises is caught and wrapped
as an invalid result; an unknown type name yields an invalid result with a
reasoning string, never an exception. -/
theorem claim_C8 :
    (∀ f v t, validate_against_template_raw f v t = .ok (validate_against_template f v t)) ∧
    (∀ v ft e, v ≠ Value.null → validate_field_type_body v ft = .error e →
      validate_field_type v ft = (false, "Validation failed: " ++ errStr e)) ∧
    (∀ v ft, v ≠ Value.null →
      strLower ft ∉ (["string", "number", "date", "boolean", "enum"] : List String) →
      validate_field_type v ft = (false, "Unknown field type: " ++ ft)) := by
  refine ⟨validate_raw_eq, ?_, ?_⟩
  · intro v ft e hn hb
    unfold validate_field_type
    rw [if_neg hn, hb]
  · intro v ft hn hu
    unfold validate_field_type
    rw [if_neg hn]
    unfold validate_field_type_body
    rw [if_neg (fun h => hu (by rw [h]; decide)), if_neg (fun h => hu (by rw [h]; decide)),
      if_neg (fun h => hu (by rw [h]; decide)), if_neg (fun h => hu (by rw [h]; decide)),
      if_neg (fun h => hu (by rw [h]; decide))]

/-- Witness for C8: the number template with an out-of-range value, an
unparsable number string, and an unknown type name. -/
theorem claim_C8_witness :
    validate_against_template_raw "amount" (Value.int 1500) tNum =
      .ok (validate_against_template "amount" (Value.int 1500) tNum) ∧
    validate_field_type (Value.str "abc") "number" =
      (false, "Validation failed: could not convert string to float: 'abc'") ∧
    validate_field_type (Value.int 7) "frobnicate" =
      (false, "Unknown field type: frobnicate") := by
  refine ⟨claim_C8.1 "amount" (Value.int 1500) tNum, ?_, ?_⟩
  · exact (claim_C8.2.1 (Value.str "abc") "number"
      (.valueError "could not convert string to float: 'abc'") (by decide) (by rfl)).trans
      (by decide)
  · exact (claim_C8.2.2 (Value.int 7) "frobnicate" (by decide) (by decide)).trans (by decide)

/-- C3: a required template field that was not processed from the extracted
data (absent, or skipped as underscore-prefixed) is synthesized in the output
as exactly `{value: null, confidence: Low, reasoning: ["Required field is
missing"], is_valid: false}`; and every required template field is represented
in the output. -/
theorem claim_C3 (e : List (String × Value)) (t : Template)
    (flds : List (String × FieldDef)) (f : String) (fd : FieldDef)
    (he : (keysAL e).Nodup) (ht : t.fields = some flds)
    (hmem : (f, fd) ∈ flds) (hreq : fd.required = true)
    (habsent : startsUnderscore f = true ∨ lookupAL e f = Option.none) :
    lookupAL (enhance_confidence_with_template e t) f = some missingRequired ∧
    missingRequired =
      ⟨Value.null, Confidence.Low, ["Required field is missing"], false, Option.none⟩ ∧
    (∀ g gd, (g, gd) ∈ flds → gd.required = true →
      (lookupAL (enhance_confidence_with_template e t) g).isSome = true) := by
  have hany : ∀ g gd, (g, gd) ∈ flds → gd.required = true → requiredAny t g = true := by
    intro g gd hg hr
    unfold requiredAny
    rw [ht]
    exact List.any_eq_true.mpr ⟨(g, gd), hg, by simp [hr]⟩
  refine ⟨?_, rfl, ?_⟩
  · rw [enhance_lookup e t f he]
    rcases habsent with hu | hl
    · simp [hu, hany f fd hmem hreq]
    · by_cases hu : startsUnderscore f = true
      · simp [hu, hany f fd hmem hreq]
      · simp only [Bool.not_eq_true] at hu
        simp [hu, hl, hany f fd hmem hreq]
  · intro g gd hg hr
    rw [enhance_lookup e t g he]
    cases hcase : (if startsUnderscore g then Option.none else lookupAL e g) with
    | some v => simp
    | none => simp [hany g gd hg hr]

/-- Witness for C3: empty extracted data against the required-`id` template. -/
theorem claim_C3_witness :
    lookupAL (enhance_confidence_with_template [] tReq) "id" = some missingRequired ∧
    (lookupAL (enhance_confidence_with_template [] tReq) "id").isSome = true := by
  have h := claim_C3 [] tReq [("id", fdRequiredString)] "id" fdRequiredString
    (by simp [keysAL]) rfl (by simp) rfl (Or.inr rfl)
  exact ⟨h.1, h.2.2 "id" fdRequiredString (by simp) rfl⟩

/-- Helper: under unique template field names, a positive required-sweep
condition pins down the looked-up field definition as required. -/
theorem requiredAny_lookup (flds : List (String × FieldDef)) (f : String)
    (hnd : (keysAL flds).Nodup)
    (ha : flds.any (fun p => p.1 == f && p.2.required) = true) :
    ∃ fd, lookupAL flds f = some fd ∧ fd.required = true := by
  obtain ⟨p, hp, hcond⟩ := List.any_eq_true.mp ha
  simp only [Bool.and_eq_true, beq_iff_eq] at hcond
  refine ⟨p.2, ?_, hcond.2⟩
  have : (f, p.2) ∈ flds := by
    have hpe : p = (f, p.2) := by
      obtain ⟨p1, p2⟩ := p
      simp only at hcond ⊢
      rw [hcond.1]
    rw [← hpe]
    exact hp
  exact lookupAL_eq_some_of_mem_nodup flds f p.2 hnd this

/-- C9: `enhance_confidence_with_template` is idempotent on verdicts: feeding
its own output's `value` entries back in against the same template gives, for
every field, the same `is_valid` and `confidence` as the first pass. -/
theorem claim_C9 (e : List (String × Value)) (t : Template)
    (he : (keysAL e).Nodup) (ht : (keysAL (t.fields.getD [])).Nodup) :
    ∀ f,
      (lookupAL (enhance_confidence_with_template
          ((enhance_confidence_with_template e t).map
            (fun p => (p.1, EnhancedResult.value p.2))) t) f).map
        (fun d => (d.is_valid, d.confidence)) =
      (lookupAL (enhance_confidence_with_template e t) f).map
        (fun d => (d.is_valid, d.confidence)) := by
  intro f
  have hn1 : (keysAL (enhance_confidence_with_template e t)).Nodup := enhance_keys_nodup e t
  have h1 := enhance_lookup e t f he
  have h2 := enhance_lookup
    ((enhance_confidence_with_template e t).map (fun p => (p.1, EnhancedResult.value p.2))) t f
    (by rw [keysAL_map_value]; exact hn1)
  rw [h1, h2, lookupAL_map_value EnhancedResult.value (enhance_confidence_with_template e t) f,
    h1]
  by_cases hu : startsUnderscore f = true
  · simp [hu]
  · simp only [Bool.not_eq_true] at hu
    cases hl : lookupAL e f with
    | some v => simp [hu, mkEnhanced]
    | none =>
      by_cases hra : requiredAny t f = true
      · obtain ⟨fd, hfd, hreq⟩ := requiredAny_lookup (t.fields.getD []) f ht
          (by simpa [requiredAny] using hra)
      -- the re-validated null value hits the required-empty short-circuit
        have hval := validate_empty_eq t f fd Value.null hfd rfl
        rw [if_pos hreq] at hval
        simp [hu, hra, missingRequired, mkEnhanced, hval]
      · simp [hu, hra]

/-- Witness for C9: a one-field extraction against the required-`id` template,
compared at the synthesized field `id`. -/
theorem claim_C9_witness :
    (lookupAL (enhance_confidence_with_template
        ((enhance_confidence_with_template [("other", Value.str "v")] tReq).map
          (fun p => (p.1, EnhancedResult.value p.2))) tReq) "id").map
      (fun d => (d.is_valid, d.confidence)) =
    (lookupAL (enhance_confidence_with_template [("other", Value.str "v")] tReq) "id").map
      (fun d => (d.is_valid, d.confidence)) :=
  claim_C9 [("other", Value.str "v")] tReq (by simp [keysAL]) (by simp [keysAL, tReq]) "id"

/-! ## The verdict invariant (C10) -/

theorem inv_stringCheckPattern (rs : List String) (fd : FieldDef) (s : String) :
    validInvariant (stringCheckPattern rs fd s).is_valid (stringCheckPattern rs fd s).confidence
      (stringCheckPattern rs fd s).suggested_correction := by
  unfold stringCheckPattern
  cases fd.pattern with
  | none => simp [validInvariant]
  | some pat =>
    by_cases h : (!reMatch pat s) = true
    · simp only [if_pos h]
      simp [validInvariant]
    · simp only [if_neg h]
      simp [validInvariant]

theorem inv_stringCheckMax (rs : List String) (fd : FieldDef) (s : String) :
    validInvariant (stringCheckMax rs fd s).is_valid (stringCheckMax rs fd s).confidence
      (stringCheckMax rs fd s).suggested_correction := by
  unfold stringCheckMax
  cases fd.max_length with
  | none => exact inv_stringCheckPattern rs fd s
  | some mxl =>
    by_cases h : s.length > mxl
    · simp only [if_pos h]
      simp [validInvariant]
    · simp only [if_neg h]
      exact inv_stringCheckPattern rs fd s

theorem inv_stringCheck (rs : List String) (fd : FieldDef) (s : String) :
    validInvariant (stringCheck rs fd s).is_valid (stringCheck rs fd s).confidence
      (stringCheck rs fd s).suggested_correction := by
  unfold stringCheck
  cases fd.min_length with
  | none => exact inv_stringCheckMax rs fd s
  | some mnl =>
    by_cases h : s.length < mnl
    · simp only [if_pos h]
      simp [validInvariant]
    · simp only [if_neg h]
      exact inv_stringCheckMax rs fd s

theorem inv_numberCheckMax (rs : List String) (fd : FieldDef) (q : ℚ) :
    validInvariant (numberCheckMax rs fd q).is_valid (numberCheckMax rs fd q).confidence
      (numberCheckMax rs fd q).suggested_correction := by
  unfold numberCheckMax
  cases fd.max with
  | none => simp [validInvariant]
  | some mx =>
    by_cases h : q > mx
    · simp only [if_pos h]
      simp [validInvariant]
    · simp only [if_neg h]
      simp [validInvariant]

theorem inv_numberCheck (rs : List String) (fd : FieldDef) (q : ℚ) :
    validInvariant (numberCheck rs fd q).is_valid (numberCheck rs fd q).confidence
      (numberCheck rs fd q).suggested_correction := by
  unfold numberCheck
  cases fd.min with
  | none => exact inv_numberCheckMax rs fd q
  | some mn =>
    by_cases h : q < mn
    · simp only [if_pos h]
      simp [validInvariant]
    · simp only [if_neg h]
      exact inv_numberCheckMax rs fd q

theorem inv_raw (f : String) (v : Value) (t : Template) (r : ValidationResult)
    (hr : validate_against_template_raw f v t = .ok r) :
    validInvariant r.is_valid r.confidence r.suggested_correction := by
  unfold validate_against_template_raw at hr
  cases hl : lookupAL (t.fields.getD []) f with
  | none =>
    rw [hl] at hr
    dsimp only at hr
    injection hr with hr
    subst hr
    simp [validInvariant]
  | some fd =>
    rw [hl] at hr
    dsimp only at hr
    by_cases h1 : (fd.required && isEmptyVal v) = true
    · rw [if_pos h1] at hr
      injection hr with hr
      subst hr
      simp [validInvariant]
    · rw [if_neg h1] at hr
      by_cases h2 : isEmptyVal v = true
      · rw [if_pos h2] at hr
        injection hr with hr
        subst hr
        simp [validInvariant]
      · rw [if_neg h2] at hr
        by_cases h3 : (!(validate_field_type v fd.type).1) = true
        · rw [if_pos h3] at hr
          injection hr with hr
          subst hr
          simp [validInvariant]
        · rw [if_neg h3] at hr
          by_cases h4 : strLower fd.type = "enum"
          · rw [if_pos h4] at hr
            by_cases h5 : (!(fd.options.map pyStr).contains (pyStr v)) = true
            · rw [if_pos h5] at hr
              injection hr with hr
              subst hr
              simp [validInvariant]
            · rw [if_neg h5] at hr
              injection hr with hr
              subst hr
              simp [validInvariant]
          · rw [if_neg h4] at hr
            by_cases h6 : strLower fd.type = "number"
            · rw [if_pos h6] at hr
              have h3' : (validate_field_type v fd.type).1 = true := by
                cases hb : (validate_field_type v fd.type).1
                · rw [hb] at h3
                  exact absurd rfl h3
                · rfl
              obtain ⟨q, hq⟩ := pyFloat_ok_of_number_valid v fd.type h6 h3'
              rw [hq] at hr
              have hr' : Except.ok (ε := PyErr)
                  (numberCheck ["Type validation: " ++ (validate_field_type v fd.type).2] fd q) =
                  Except.ok r := hr
              injection hr' with hr'
              subst hr'
              exact inv_numberCheck _ fd q
            · rw [if_neg h6] at hr
              by_cases h7 : strLower fd.type = "string"
              · rw [if_pos h7] at hr
                injection hr with hr
                subst hr
                exact inv_stringCheck _ fd (pyStr v)
              · rw [if_neg h7] at hr
                injection hr with hr
                subst hr
                simp [validInvariant]

theorem mem_dictInsert {α : Type} (l : List (String × α)) (k : String) (v : α)
    (p : String × α) (hp : p ∈ dictInsert l k v) : p ∈ l ∨ p = (k, v) := by
  induction l with
  | nil =>
    simp [dictInsert] at hp
    exact Or.inr hp
  | cons q rest ih =>
    obtain ⟨k', v'⟩ := q
    by_cases h : k' = k
    · subst h
      simp only [dictInsert, if_pos rfl] at hp
      rcases List.mem_cons.mp hp with h | h
      · exact Or.inr (by rw [h])
      · exact Or.inl (List.mem_cons_of_mem _ h)
    · simp only [dictInsert, if_neg h] at hp
      rcases List.mem_cons.mp hp with h' | h'
      · exact Or.inl (by rw [h']; exact List.mem_cons_self _ _)
      · rcases ih h' with h'' | h''
        · exact Or.inl (List.mem_cons_of_mem _ h'')
        · exact Or.inr h''

theorem mem_processFields (t : Template) (e : List (String × Value))
    (acc : List (String × EnhancedResult)) (p : String × EnhancedResult)
    (hp : p ∈ processFields t e acc) :
    p ∈ acc ∨ ∃ g w, p = (g, mkEnhanced w (validate_against_template g w t)) := by
  induction e generalizing acc with
  | nil => exact Or.inl hp
  | cons q rest ih =>
    obtain ⟨g, w⟩ := q
    by_cases hu : startsUnderscore g = true
    · rw [show processFields t ((g, w) :: rest) acc = processFields t rest acc by
        simp [processFields, hu]] at hp
      exact ih acc hp
    · rw [show processFields t ((g, w) :: rest) acc =
          processFields t rest
            (dictInsert acc g (mkEnhanced w (validate_against_template g w t))) by
        simp [processFields, hu]] at hp
      rcases ih _ hp with h | h
      · rcases mem_dictInsert _ _ _ _ h with h' | h'
        · exact Or.inl h'
        · exact Or.inr ⟨g, w, h'⟩
      · exact Or.inr h

theorem mem_sweepRequired (flds : List (String × FieldDef))
    (acc : List (String × EnhancedResult)) (p : String × EnhancedResult)
    (hp : p ∈ sweepRequired flds acc) :
    p ∈ acc ∨ p.2 = missingRequired := by
  induction flds generalizing acc with
  | nil => exact Or.inl hp
  | cons q rest ih =>
    obtain ⟨g, fd⟩ := q
    by_cases hc : (fd.required && !memKey acc g) = true
    · rw [show sweepRequired ((g, fd) :: rest) acc =
          sweepRequired rest (dictInsert acc g missingRequired) by simp [sweepRequired, hc]] at hp
      rcases ih _ hp with h | h
      · rcases mem_dictInsert _ _ _ _ h with h' | h'
        · exact Or.inl h'
        · exact Or.inr (by rw [h'])
      · exact Or.inr h
    · rw [show sweepRequired ((g, fd) :: rest) acc = sweepRequired rest acc by
        simp [sweepRequired, hc]] at hp
      exact ih acc hp

/-- C10: every validation result (and hence every entry of the enhanced-results
mapping) satisfies the invariant: the confidence is one of High/Medium/Low, a
valid result carries High confidence, and a non-null suggested correction comes
only with an invalid, Low-confidence result. -/
theorem claim_C10 :
    (∀ f v t,
      validInvariant (validate_against_template f v t).is_valid
        (validate_against_template f v t).confidence
        (validate_against_template f v t).suggested_correction) ∧
    (∀ e t p, p ∈ enhance_confidence_with_template e t →
      validInvariant p.2.is_valid p.2.confidence p.2.suggested_correction) := by
  have hval : ∀ f v t,
      validInvariant (validate_against_template f v t).is_valid
        (validate_against_template f v t).confidence
        (validate_against_template f v t).suggested_correction := by
    intro f v t
    exact inv_raw f v t _ (validate_raw_eq f v t)
  refine ⟨hval, ?_⟩
  intro e t p hp
  have hmem : p ∈ processFields t e [] ∨ p.2 = missingRequired := by
    unfold enhance_confidence_with_template at hp
    cases ht : t.fields with
    | none =>
      rw [ht] at hp
      exact Or.inl hp
    | some flds =>
      rw [ht] at hp
      exact mem_sweepRequired flds _ p hp
  rcases hmem with h | h
  · rcases mem_processFields t e [] p h with h' | h'
    · simp at h'
    · obtain ⟨g, w, h'⟩ := h'
      rw [h']
      exact hval g w t
  · rw [h]
    simp [missingRequired, validInvariant]

/-- Witness for C10: the enum validation of an allowed value, and the
synthesized missing-required entry of the required-`id` template. -/
theorem claim_C10_witness :
    validInvariant (validate_against_template "status" (Value.str "open") tEnum).is_valid
      (validate_against_template "status" (Value.str "open") tEnum).confidence
      (validate_against_template "status" (Value.str "open") tEnum).suggested_correction ∧
    validInvariant ("id", missingRequired).2.is_valid ("id", missingRequired).2.confidence
      ("id", missingRequired).2.suggested_correction :=
  ⟨claim_C10.1 "status" (Value.str "open") tEnum,
   claim_C10.2 [] tReq ("id", missingRequired) (by decide)⟩

/-! ## Flattening lemmas (C6, C7) -/

theorem keysAL_append {α : Type} (l1 l2 : List (String × α)) :
    keysAL (l1 ++ l2) = keysAL l1 ++ keysAL l2 :=
  List.map_append _ _ _

theorem mem_keysAL_dictInsert {α : Type} (l : List (String × α)) (k0 : String) (v : α)
    (k : String) (h : k ∈ keysAL (dictInsert l k0 v)) : k ∈ keysAL l ∨ k = k0 := by
  rw [keysAL_dictInsert] at h
  by_cases hm : k0 ∈ keysAL l
  · rw [if_pos hm] at h
    exact Or.inl h
  · rw [if_neg hm] at h
    rcases List.mem_append.mp h with h' | h'
    · exact Or.inl h'
    · exact Or.inr (List.mem_singleton.mp h')

theorem startsUnderscore_append (g s : String) (h : g ≠ "") :
    startsUnderscore (g ++ s) = startsUnderscore g := by
  unfold startsUnderscore
  rw [String.data_append]
  cases hg : g.data with
  | nil => exact absurd (String.ext hg) h
  | cons c rest => rfl

theorem dictInsert2_fresh {α : Type} (acc : List (String × α)) (k1 : String) (v1 : α)
    (k2 : String) (v2 : α) (h1 : k1 ∉ keysAL acc) (h2 : k2 ∉ keysAL acc) (h21 : k2 ≠ k1) :
    dictInsert (dictInsert acc k1 v1) k2 v2 = acc ++ [(k1, v1), (k2, v2)] := by
  rw [dictInsert_of_fresh _ _ _ h1,
    dictInsert_of_fresh _ _ _ (by
      rw [keysAL_append]
      intro h
      rcases List.mem_append.mp h with h' | h'
      · exact h2 h'
      · exact h21 (by simpa [keysAL] using h')),
    List.append_assoc]
  rfl

theorem dictInsert3_fresh {α : Type} (acc : List (String × α)) (k1 : String) (v1 : α)
    (k2 : String) (v2 : α) (k3 : String) (v3 : α)
    (h1 : k1 ∉ keysAL acc) (h2 : k2 ∉ keysAL acc) (h3 : k3 ∉ keysAL acc)
    (h21 : k2 ≠ k1) (h31 : k3 ≠ k1) (h32 : k3 ≠ k2) :
    dictInsert (dictInsert (dictInsert acc k1 v1) k2 v2) k3 v3 =
      acc ++ [(k1, v1), (k2, v2), (k3, v3)] := by
  rw [dictInsert2_fresh acc k1 v1 k2 v2 h1 h2 h21,
    dictInsert_of_fresh _ _ _ (by
      rw [keysAL_append]
      intro h
      rcases List.mem_append.mp h with h' | h'
      · exact h3 h'
      · rcases (by simpa [keysAL] using h' : k3 = k1 ∨ k3 = k2) with h'' | h''
        · exact h31 h''
        · exact h32 h''),
    List.append_assoc]
  rfl

theorem formatLoop_fresh (ir : Bool) (er : List (String × EnhancedResult))
    (acc : List (String × Value))
    (hdisj : ∀ k ∈ keysAL (flatEntries ir er), k ∉ keysAL acc)
    (hnd : (keysAL (flatEntries ir er)).Nodup) :
    formatLoop ir er acc = acc ++ flatEntries ir er := by
  induction er generalizing acc with
  | nil => simp [formatLoop, flatEntries]
  | cons p rest ih =>
    obtain ⟨f, d⟩ := p
    by_cases hc : (ir && !d.reasoning.isEmpty) = true
    · have hkeys : keysAL (flatEntries ir ((f, d) :: rest)) =
          f :: (f ++ "_confidence") :: (f ++ "_reasoning") :: keysAL (flatEntries ir rest) := by
        simp [flatEntries, hc, keysAL_cons, keysAL_append, keysAL]
      rw [hkeys] at hdisj hnd
      have hf : f ∉ keysAL acc := hdisj f (by simp)
      have hfc : (f ++ "_confidence") ∉ keysAL acc := hdisj _ (by simp)
      have hfr : (f ++ "_reasoning") ∉ keysAL acc := hdisj _ (by simp)
      simp only [List.nodup_cons, List.mem_cons, not_or] at hnd
      obtain ⟨⟨hffc, hffr, hfK⟩, ⟨hfcfr, hfcK⟩, hfrK, hndK⟩ := hnd
      rw [show formatLoop ir ((f, d) :: rest) acc = formatLoop ir rest
          (dictInsert
            (dictInsert (dictInsert acc f d.value)
              (f ++ "_confidence") (.str (confToString d.confidence)))
            (f ++ "_reasoning") (.str (String.intercalate " " d.reasoning))) by
        simp [formatLoop, hc]]
      rw [dictInsert3_fresh acc _ _ _ _ _ _ hf hfc hfr
        (Ne.symm hffc) (Ne.symm hffr) (Ne.symm hfcfr)]
      have hdisj' : ∀ k ∈ keysAL (flatEntries ir rest),
          k ∉ keysAL (acc ++ [(f, d.value),
            (f ++ "_confidence", Value.str (confToString d.confidence)),
            (f ++ "_reasoning", Value.str (String.intercalate " " d.reasoning))]) := by
        intro k hk
        rw [keysAL_append]
        simp only [keysAL, List.map_cons, List.map_nil, List.mem_append, List.mem_cons,
          List.not_mem_nil, or_false, not_or]
        refine ⟨hdisj k (by simp [hk]), ?_, ?_, ?_⟩
        · intro h
          exact hfK (h ▸ hk)
        · intro h
          exact hfcK (h ▸ hk)
        · intro h
          exact hfrK (h ▸ hk)
      rw [ih _ hdisj' hndK]
      simp [flatEntries, hc, List.append_assoc]
    · have hkeys : keysAL (flatEntries ir ((f, d) :: rest)) =
          f :: (f ++ "_confidence") :: keysAL (flatEntries ir rest) := by
        simp [flatEntries, hc, keysAL_cons, keysAL_append, keysAL]
      rw [hkeys] at hdisj hnd
      have hf : f ∉ keysAL acc := hdisj f (by simp)
      have hfc : (f ++ "_confidence") ∉ keysAL acc := hdisj _ (by simp)
      simp only [List.nodup_cons, List.mem_cons, not_or] at hnd
      obtain ⟨⟨hffc, hfK⟩, hfcK, hndK⟩ := hnd
      rw [show formatLoop ir ((f, d) :: rest) acc = formatLoop ir rest
          (dictInsert (dictInsert acc f d.value)
            (f ++ "_confidence") (.str (confToString d.confidence))) by
        simp [formatLoop, hc]]
      rw [dictInsert2_fresh acc _ _ _ _ hf hfc (Ne.symm hffc)]
      have hdisj' : ∀ k ∈ keysAL (flatEntries ir rest),
          k ∉ keysAL (acc ++ [(f, d.value),
            (f ++ "_confidence", Value.str (confToString d.confidence))]) := by
        intro k hk
        rw [keysAL_append]
        simp only [keysAL, List.map_cons, List.map_nil, List.mem_append, List.mem_cons,
          List.not_mem_nil, or_false, not_or]
        refine ⟨hdisj k (by simp [hk]), ?_, ?_⟩
        · intro h
          exact hfK (h ▸ hk)
        · intro h
          exact hfcK (h ▸ hk)
      rw [ih _ hdisj' hndK]
      simp [flatEntries, hc, List.append_assoc]

theorem format_eq_flat (er : List (String × EnhancedResult)) (ir : Bool)
    (h : (emittedKeys er ir).Nodup) :
    format_confidence_results er ir =
      flatEntries ir er ++
        [("_overall_confidence", .str (confToString (calculate_overall_confidence er)))] := by
  unfold emittedKeys at h
  have hnd : (keysAL (flatEntries ir er)).Nodup :=
    h.sublist (List.sublist_append_left _ _)
  have hov : "_overall_confidence" ∉ keysAL (flatEntries ir er) := by
    intro hm
    rcases List.nodup_append.mp h with ⟨_, _, hdisj⟩
    exact hdisj hm (by simp)
  unfold format_confidence_results
  rw [formatLoop_fresh ir er [] (by simp [keysAL]) hnd]
  rw [List.nil_append, dictInsert_of_fresh _ _ _ hov]

theorem flatEntries_mem_value (ir : Bool) (er : List (String × EnhancedResult))
    (f : String) (d : EnhancedResult) (h : (f, d) ∈ er) :
    (f, d.value) ∈ flatEntries ir er := by
  induction er with
  | nil => simp at h
  | cons p rest ih =>
    obtain ⟨g, d'⟩ := p
    rcases List.mem_cons.mp h with h' | h'
    · injection h' with h1 h2
      subst h1
      subst h2
      simp [flatEntries]
    · simp only [flatEntries, List.mem_cons, List.mem_append]
      right
      right
      right
      exact ih h'

theorem flatEntries_mem_conf (ir : Bool) (er : List (String × EnhancedResult))
    (f : String) (d : EnhancedResult) (h : (f, d) ∈ er) :
    (f ++ "_confidence", Value.str (confToString d.confidence)) ∈ flatEntries ir er := by
  induction er with
  | nil => simp at h
  | cons p rest ih =>
    obtain ⟨g, d'⟩ := p
    rcases List.mem_cons.mp h with h' | h'
    · injection h' with h1 h2
      subst h1
      subst h2
      simp [flatEntries]
    · simp only [flatEntries, List.mem_cons, List.mem_append]
      right
      right
      right
      exact ih h'

theorem flatEntries_mem_reason (ir : Bool) (er : List (String × EnhancedResult))
    (f : String) (d : EnhancedResult) (h : (f, d) ∈ er)
    (hc : (ir && !d.reasoning.isEmpty) = true) :
    (f ++ "_reasoning", Value.str (String.intercalate " " d.reasoning)) ∈ flatEntries ir er := by
  induction er with
  | nil => simp at h
  | cons p rest ih =>
    obtain ⟨g, d'⟩ := p
    rcases List.mem_cons.mp h with h' | h'
    · injection h' with h1 h2
      subst h1
      subst h2
      simp [flatEntries, hc]
    · simp only [flatEntries, List.mem_cons, List.mem_append]
      right
      right
      right
      exact ih h'

/-- C6 fails as universally stated: when one field is literally named
`a_confidence`, the flattened mapping cannot hold both it and field `a`'s
confidence under the single key `a_confidence`; field `a` has High confidence
but the key-convention lookup returns the colliding field's value. -/
theorem claim_C6_counterexample :
    ("a", (⟨.str "v", .High, [], true, Option.none⟩ : EnhancedResult)) ∈ erCollide ∧
    (⟨Value.str "v", Confidence.High, [], true, Option.none⟩ : EnhancedResult).confidence =
      Confidence.High ∧
    lookupAL (format_confidence_results erCollide true) ("a" ++ "_confidence") =
      some (.str "w") ∧
    some (Value.str "w") ≠ some (Value.str (confToString Confidence.High)) :=
  ⟨by decide, rfl, by decide, by decide⟩

/-- C6 (amended): provided the emitted keys — each field name, its
`_confidence` key, its conditional `_reasoning` key, and the single
`_overall_confidence` — are pairwise distinct, the flat mapping's keys are
exactly those (one `<field>` and one `<field>_confidence` key per field, a
`<field>_reasoning` key exactly when reasoning is requested and non-empty, and
exactly one `_overall_confidence` key), and the original per-field value,
confidence and reasoning are recoverable by the key convention. -/
theorem claim_C6 (er : List (String × EnhancedResult)) (ir : Bool)
    (h : (emittedKeys er ir).Nodup) :
    keysAL (format_confidence_results er ir) = emittedKeys er ir ∧
    lookupAL (format_confidence_results er ir) "_overall_confidence" =
      some (.str (confToString (calculate_overall_confidence er))) ∧
    (∀ f d, (f, d) ∈ er →
      lookupAL (format_confidence_results er ir) f = some d.value ∧
      lookupAL (format_confidence_results er ir) (f ++ "_confidence") =
        some (.str (confToString d.confidence)) ∧
      ((ir && !d.reasoning.isEmpty) = true →
        lookupAL (format_confidence_results er ir) (f ++ "_reasoning") =
          some (.str (String.intercalate " " d.reasoning)))) := by
  have hF := format_eq_flat er ir h
  have hkeys : keysAL (format_confidence_results er ir) = emittedKeys er ir := by
    rw [hF, keysAL_append]
    rfl
  have hnodup : (keysAL (format_confidence_results er ir)).Nodup := by
    rw [hkeys]
    exact h
  refine ⟨hkeys, ?_, ?_⟩
  · refine lookupAL_eq_some_of_mem_nodup _ _ _ hnodup ?_
    rw [hF]
    exact List.mem_append_right _ (by simp)
  · intro f d hm
    refine ⟨?_, ?_, ?_⟩
    · refine lookupAL_eq_some_of_mem_nodup _ _ _ hnodup ?_
      rw [hF]
      exact List.mem_append_left _ (flatEntries_mem_value ir er f d hm)
    · refine lookupAL_eq_some_of_mem_nodup _ _ _ hnodup ?_
      rw [hF]
      exact List.mem_append_left _ (flatEntries_mem_conf ir er f d hm)
    · intro hc
      refine lookupAL_eq_some_of_mem_nodup _ _ _ hnodup ?_
      rw [hF]
      exact List.mem_append_left _ (flatEntries_mem_reason ir er f d hm hc)

/-- Witness for C6: one field `a` with reasoning, whose value, confidence, and
reasoning are all recovered from the flat mapping. -/
theorem claim_C6_witness :
    (emittedKeys erSingle true).Nodup ∧
    keysAL (format_confidence_results erSingle true) = emittedKeys erSingle true ∧
    lookupAL (format_confidence_results erSingle true) ("a" ++ "_confidence") =
      some (.str (confToString Confidence.High)) := by
  have h : (emittedKeys erSingle true).Nodup := by decide
  have hc := claim_C6 erSingle true h
  refine ⟨h, hc.1, ?_⟩
  exact ((hc.2.2 "a" ⟨.str "v", .High, ["r1", "r2"], true, Option.none⟩ (by decide)).2.1).trans
    (by decide)

theorem mem_keys_formatLoop (ir : Bool) (er : List (String × EnhancedResult))
    (acc : List (String × Value)) (k : String)
    (hk : k ∈ keysAL (formatLoop ir er acc)) :
    k ∈ keysAL acc ∨
      ∃ g, g ∈ keysAL er ∧
        (k = g ∨ k = g ++ "_confidence" ∨ k = g ++ "_reasoning") := by
  induction er generalizing acc with
  | nil => exact Or.inl hk
  | cons p rest ih =>
    obtain ⟨g, d⟩ := p
    by_cases hc : (ir && !d.reasoning.isEmpty) = true
    · rw [show formatLoop ir ((g, d) :: rest) acc = formatLoop ir rest
          (dictInsert
            (dictInsert (dictInsert acc g d.value)
              (g ++ "_confidence") (.str (confToString d.confidence)))
            (g ++ "_reasoning") (.str (String.intercalate " " d.reasoning))) by
        simp [formatLoop, hc]] at hk
      rcases ih _ hk with h | h
      · rcases mem_keysAL_dictInsert _ _ _ _ h with h' | h'
        · rcases mem_keysAL_dictInsert _ _ _ _ h' with h'' | h''
          · rcases mem_keysAL_dictInsert _ _ _ _ h'' with h3 | h3
            · exact Or.inl h3
            · exact Or.inr ⟨g, by simp [keysAL], Or.inl h3⟩
          · exact Or.inr ⟨g, by simp [keysAL], Or.inr (Or.inl h'')⟩
        · exact Or.inr ⟨g, by simp [keysAL], Or.inr (Or.inr h')⟩
      · obtain ⟨g', hg', hk'⟩ := h
        exact Or.inr ⟨g', by simp [keysAL]; exact Or.inr (by simpa [keysAL] using hg'), hk'⟩
    · rw [show formatLoop ir ((g, d) :: rest) acc = formatLoop ir rest
          (dictInsert (dictInsert acc g d.value)
            (g ++ "_confidence") (.str (confToString d.confidence))) by
        simp [formatLoop, hc]] at hk
      rcases ih _ hk with h | h
      · rcases mem_keysAL_dictInsert _ _ _ _ h with h' | h'
        · rcases mem_keysAL_dictInsert _ _ _ _ h' with h'' | h''
          · exact Or.inl h''
          · exact Or.inr ⟨g, by simp [keysAL], Or.inl h''⟩
        · exact Or.inr ⟨g, by simp [keysAL], Or.inr (Or.inl h')⟩
      · obtain ⟨g', hg', hk'⟩ := h
        exact Or.inr ⟨g', by simp [keysAL]; exact Or.inr (by simpa [keysAL] using hg'), hk'⟩

/-- C7 fails as universally stated, in two ways: the missing-required sweep
does not skip underscore names, so a template that declares a required `_x`
puts `_x` into the output; and a field named by the empty string produces the
underscore-prefixed formatted key `_confidence` distinct from
`_overall_confidence`. -/
theorem claim_C7_counterexample :
    startsUnderscore "_x" = true ∧
    lookupAL (enhance_confidence_with_template [] tReqUnderscore) "_x" =
      some missingRequired ∧
    startsUnderscore "_confidence" = true ∧
    "_confidence" ≠ "_overall_confidence" ∧
    lookupAL
      (format_confidence_results
        (enhance_confidence_with_template [("", Value.str "v")] tReq) true)
      "_confidence" = some (.str "Low") :=
  ⟨rfl, by decide, rfl, by decide, by decide⟩

/-- C7 (amended): underscore-prefixed extracted fields are never processed, and
provided the template's required field names are non-empty and not
underscore-prefixed and no extracted field is named by the empty string,
underscore-prefixed keys are absent from `enhance_confidence_with_template`'s
output and from the formatted result except for the synthesized
`_overall_confidence`. -/
theorem claim_C7 (e : List (String × Value)) (t : Template)
    (he : (keysAL e).Nodup)
    (hreq : ∀ p ∈ t.fields.getD [], p.2.required = true →
      startsUnderscore p.1 = false ∧ p.1 ≠ "")
    (hkeys : ∀ k ∈ keysAL e, k ≠ "") :
    (∀ f, startsUnderscore f = true →
      lookupAL (enhance_confidence_with_template e t) f = Option.none) ∧
    (∀ ir k, startsUnderscore k = true → k ≠ "_overall_confidence" →
      lookupAL (format_confidence_results (enhance_confidence_with_template e t) ir) k =
        Option.none) := by
  have hra : ∀ f, startsUnderscore f = true → requiredAny t f = false := by
    intro f hu
    cases h : requiredAny t f with
    | false => rfl
    | true =>
      exfalso
      unfold requiredAny at h
      obtain ⟨p, hp, hcond⟩ := List.any_eq_true.mp h
      simp only [Bool.and_eq_true, beq_iff_eq] at hcond
      have := (hreq p hp hcond.2).1
      rw [hcond.1] at this
      rw [this] at hu
      exact Bool.false_ne_true hu
  have hnone : ∀ f, startsUnderscore f = true →
      lookupAL (enhance_confidence_with_template e t) f = Option.none := by
    intro f hu
    rw [enhance_lookup e t f he]
    simp [hu, hra f hu]
  have hgood : ∀ g, g ∈ keysAL (enhance_confidence_with_template e t) →
      startsUnderscore g = false ∧ g ≠ "" := by
    intro g hg
    have hs : (lookupAL (enhance_confidence_with_template e t) g).isSome = true :=
      (lookupAL_isSome_iff_mem _ g).mpr hg
    constructor
    · cases hu : startsUnderscore g with
      | false => rfl
      | true =>
        rw [hnone g hu] at hs
        exact absurd hs (by simp)
    · intro hge
      subst hge
      rw [enhance_lookup e t "" he] at hs
      have hu0 : startsUnderscore "" = false := rfl
      rw [hu0] at hs
      cases hl : lookupAL e "" with
      | some v =>
        have : "" ∈ keysAL e := (lookupAL_isSome_iff_mem e "").mp (by simp [hl])
        exact hkeys "" this rfl
      | none =>
        rw [hl] at hs
        simp only [Bool.false_eq_true, if_false] at hs
        by_cases hr0 : requiredAny t "" = true
        · unfold requiredAny at hr0
          obtain ⟨p, hp, hcond⟩ := List.any_eq_true.mp hr0
          simp only [Bool.and_eq_true, beq_iff_eq] at hcond
          exact (hreq p hp hcond.2).2 hcond.1
        · simp only [Bool.not_eq_true] at hr0
          rw [hr0] at hs
          simp at hs
  refine ⟨hnone, ?_⟩
  intro ir k hu hno
  apply lookupAL_eq_none_of_not_mem
  intro hk
  unfold format_confidence_results at hk
  rcases mem_keysAL_dictInsert _ _ _ _ hk with h | h
  · rcases mem_keys_formatLoop ir _ [] k h with h' | h'
    · simp [keysAL] at h'
    · obtain ⟨g, hg, hk'⟩ := h'
      obtain ⟨hgu, hgne⟩ := hgood g hg
      rcases hk' with h'' | h'' | h''
      · rw [h''] at hu
        rw [hgu] at hu
        exact Bool.false_ne_true hu
      · rw [h''] at hu
        rw [startsUnderscore_append g "_confidence" hgne, hgu] at hu
        exact Bool.false_ne_true hu
      · rw [h''] at hu
        rw [startsUnderscore_append g "_reasoning" hgne, hgu] at hu
        exact Bool.false_ne_true hu
  · exact hno h

/-- Witness for C7: an underscore field in the extracted data is absent from
the output, and an unrelated underscore key is absent from the formatted
result. -/
theorem claim_C7_witness :
    lookupAL (enhance_confidence_with_template
      [("_skip", Value.str "x"), ("id", Value.str "ok")] tReq) "_skip" = Option.none ∧
    lookupAL (format_confidence_results (enhance_confidence_with_template
      [("_skip", Value.str "x"), ("id", Value.str "ok")] tReq) true) "_private" =
      Option.none := by
  have h := claim_C7 [("_skip", Value.str "x"), ("id", Value.str "ok")] tReq
    (by decide) (by decide) (by decide)
  exact ⟨h.1 "_skip" rfl, h.2 true "_private" rfl (by decide)⟩

end MetadataConfidence
